import Mathlib

/-!
Verification development for the ElectronBonder client library
(`electronbonder/client.py`, `electronbonder/client/web_client.py`).

The development shallowly embeds the client code.  Parsed JSON values
(the results of Python's `json.loads`) are modelled by the inductive
type `Json`; Python string-keyed dictionaries are modelled by ordered
association lists (`SDict`).  HTTP traffic is modelled by environments:
a function from the request actually issued to the response the server
gives back.  Floating-point JSON numbers are out of scope (no claim
involves them), so numbers are modelled by `Int`.
-/

set_option autoImplicit false

/-- Parsed JSON value, the result of Python's `json.loads`. -/
inductive Json where
  | null : Json
  | bool (b : Bool) : Json
  | num (n : Int) : Json
  | str (s : String) : Json
  | arr (elts : List Json) : Json
  | obj (fields : List (String × Json)) : Json

/-- Python string-keyed dictionary with values of type `α`, modelled as an
insertion-ordered association list (keys are kept unique by the operations). -/
def SDict (α : Type) : Type := List (String × α)

namespace SDict

/-- Python `d[k]` lookup / `k in d` test: the value at key `k`, if present. -/
def get? {α : Type} : SDict α → String → Option α
  | [], _ => none
  | (k, v) :: rest, key => if k = key then some v else get? rest key

/-- Python `d[k] = v`: replace the value at `k` in place, or append a new entry. -/
def set {α : Type} : SDict α → String → α → SDict α
  | [], key, val => [(key, val)]
  | (k, v) :: rest, key, val =>
      if k = key then (k, val) :: rest else (k, v) :: set rest key val

/-- Python `d.update(e)`: apply every entry of `e` to `d`, in order. -/
def update {α : Type} (d : SDict α) (e : SDict α) : SDict α :=
  e.foldl (fun acc kv => acc.set kv.1 kv.2) d

/-- Python `del d[k]`: drop the entry at key `k`, if present. -/
def erase {α : Type} : SDict α → String → SDict α
  | [], _ => []
  | (k, v) :: rest, key => if k = key then rest else (k, v) :: erase rest key

end SDict

/-- Python truthiness (`bool(x)`) of a parsed JSON value. -/
def Json.truthy : Json → Bool
  | .null => false
  | .bool b => b
  | .num n => n != 0
  | .str s => s != ""
  | .arr elts => !elts.isEmpty
  | .obj fields => !fields.isEmpty

/-- Python subscription `j["k"]` on a parsed JSON value: succeeds only on a
dictionary that has the key; every other case raises (KeyError/TypeError),
modelled as `none`. -/
def Json.getItem : Json → String → Option Json
  | .obj fields, key => SDict.get? fields key
  | _, _ => none

/-- Python iteration order of a sized JSON value: lists yield their elements,
strings their characters (as one-character strings), dictionaries their keys.
`len` and `for` both raise `TypeError` on the remaining cases (`none`);
when defined, `len` equals the length of this list. -/
def Json.pyIter : Json → Option (List Json)
  | .arr elts => some elts
  | .str s => some (s.toList.map fun c => Json.str (String.mk [c]))
  | .obj fields => some (fields.map fun kv => Json.str kv.1)
  | _ => none

/-- Python `x + 1` on a parsed JSON value: defined for numbers (and booleans,
which are integers in Python); every other case raises `TypeError` (`none`). -/
def Json.addOne : Json → Option Json
  | .num n => some (.num (n + 1))
  | .bool b => some (.num ((if b then (1 : Int) else 0) + 1))
  | _ => none

mutual

/-- Python `repr` of a parsed JSON value (nested rendering used by `str` on
containers).  String escaping niceties of CPython's `repr` are simplified to
plain single quotes. -/
def Json.pyRepr : Json → String
  | .null => "None"
  | .bool b => if b then "True" else "False"
  | .num n => toString n
  | .str s => "\x27" ++ s ++ "\x27"
  | .arr elts => "[" ++ Json.pyReprSeq elts ++ "]"
  | .obj fields => "\x7b" ++ Json.pyReprFields fields ++ "\x7d"

/-- Comma-separated `repr` of list elements. -/
def Json.pyReprSeq : List Json → String
  | [] => ""
  | [x] => Json.pyRepr x
  | x :: y :: rest => Json.pyRepr x ++ ", " ++ Json.pyReprSeq (y :: rest)

/-- Comma-separated `repr` of dictionary entries. -/
def Json.pyReprFields : List (String × Json) → String
  | [] => ""
  | [(k, v)] => "\x27" ++ k ++ "\x27: " ++ Json.pyRepr v
  | (k, v) :: kv :: rest =>
      "\x27" ++ k ++ "\x27: " ++ Json.pyRepr v ++ ", " ++ Json.pyReprFields (kv :: rest)

end

/-- Python `str` of a parsed JSON value (as used by `"...".format(x)` and
f-strings): bare text for strings, `repr`-style rendering otherwise. -/
def Json.pyStr : Json → String
  | .str s => s
  | j => Json.pyRepr j

/-! ## Model of `urllib.parse.urlparse` (the parts the client uses)

Transliterated from CPython's `urllib/parse.py` (`urlsplit`, `_splitparams`),
omitting the WHATWG control-character stripping and the bracketed-host
validation, neither of which affects well-formed URLs. -/

/-- Index of the first character satisfying `p`, Python `str.find` style. -/
def findChIdx (p : Char → Bool) : List Char → Option Nat
  | [] => none
  | c :: rest => if p c then some 0 else (findChIdx p rest).map (· + 1)

/-- Python `ch in s` membership test on a character list. -/
def hasCh (ch : Char) : List Char → Bool
  | [] => false
  | c :: rest => (c == ch) || hasCh ch rest

/-- Index of the last character satisfying `p`, Python `str.rfind` style. -/
def rfindChIdx (p : Char → Bool) (cs : List Char) : Option Nat :=
  (findChIdx p cs.reverse).map (fun i => cs.length - 1 - i)

/-- Characters allowed in a URL scheme after the first (`scheme_chars`). -/
def isSchemeChar (c : Char) : Bool :=
  c.isAlphanum || c == '+' || c == '-' || c == '.'

/-- CPython's scheme validity test: nonempty, leading ASCII letter, the rest
drawn from `scheme_chars`. -/
def validScheme : List Char → Bool
  | [] => false
  | c :: rest => c.isAlpha && rest.all isSchemeChar

/-- Characters that terminate the netloc in `urlsplit` (`_splitnetloc`). -/
def netlocDelim (c : Char) : Bool :=
  c == '/' || c == '?' || c == '#'

/-- Scheme splitting step of `urlsplit`: peel `scheme:` off the front when the
prefix before the first colon is a valid scheme, lowercasing it. -/
def splitScheme (cs : List Char) : List Char × List Char :=
  match findChIdx (fun c => c == ':') cs with
  | some i =>
      if validScheme (cs.take i) then ((cs.take i).map Char.toLower, cs.drop (i + 1))
      else ([], cs)
  | none => ([], cs)

/-- Netloc splitting step of `urlsplit` (`_splitnetloc` after the `//`):
everything up to the next `/`, `?` or `#`. -/
def splitNetloc (cs : List Char) : List Char × List Char :=
  match findChIdx netlocDelim cs with
  | some i => (cs.take i, cs.drop i)
  | none => (cs, [])

/-- Python `s.split(c, 1)` as used by `urlsplit` for `#` and `?`: the part
before the first occurrence and the part after it (empty when absent). -/
def splitOnceAt (target : Char) (cs : List Char) : List Char × List Char :=
  match findChIdx (fun c => c == target) cs with
  | some i => (cs.take i, cs.drop (i + 1))
  | none => (cs, [])

/-- Schemes for which `urlparse` separates `;params` from the path
(`uses_params`). -/
def usesParams : List String :=
  ["", "ftp", "hdl", "prospero", "http", "imap", "https", "shttp", "rtsp",
   "rtspu", "sip", "sips", "mms", "sftp", "tel"]

/-- CPython's `_splitparams`: split `;params` off the last path segment. -/
def splitParamsPy (cs : List Char) : List Char × List Char :=
  if hasCh '/' cs then
    let j := (rfindChIdx (fun c => c == '/') cs).getD 0
    match findChIdx (fun c => c == ';') (cs.drop j) with
    | some k => (cs.take (j + k), cs.drop (j + k + 1))
    | none => (cs, [])
  else
    match findChIdx (fun c => c == ';') cs with
    | some k => (cs.take k, cs.drop (k + 1))
    | none => (cs, [])

/-- CPython's `url[:2] == '//'` test before netloc splitting. -/
def startsWithDoubleSlash : List Char → Bool
  | c1 :: c2 :: _ => c1 == '/' && c2 == '/'
  | _ => false

/-- Result of `urllib.parse.urlparse`. -/
structure UrlParts where
  scheme : String
  netloc : String
  path : String
  urlParams : String
  query : String
  fragment : String

/-- Model of `urllib.parse.urlparse`: scheme, then `//netloc`, then fragment,
then query are peeled off; `;params` are split from the path for the schemes
in `uses_params`. -/
def urlparse (url : String) : UrlParts :=
  let cs := url.toList
  let sp := splitScheme cs
  let np :=
    if startsWithDoubleSlash sp.2 then splitNetloc (sp.2.drop 2)
    else ([], sp.2)
  let fp := splitOnceAt '#' np.2
  let qp := splitOnceAt '?' fp.1
  let scheme := String.mk sp.1
  let pp :=
    if usesParams.contains scheme && hasCh ';' qp.1 then splitParamsPy qp.1
    else (qp.1, [])
  { scheme := scheme, netloc := String.mk np.1, path := String.mk pp.1,
    urlParams := String.mk pp.2, query := String.mk qp.2,
    fragment := String.mk fp.2 }

/-! ## The client: session, proxy verb methods -/

/-- Python `s.rstrip("/")`: drop every trailing slash. -/
def rstripSlashes (s : String) : String :=
  String.mk (List.reverse (List.dropWhile (fun c => c == '/') s.toList.reverse))

/-- Python `s.lstrip("/")`: drop every leading slash. -/
def lstripSlashes (s : String) : String :=
  String.mk (List.dropWhile (fun c => c == '/') s.toList)

/-- The HTTP verbs for which `ElectronBondProxyMethods` installs a proxy
method on `ElectronBond` (`client.py`; `web_client.py` omits `patch`). -/
def proxyVerbs : List String :=
  ["get", "post", "head", "patch", "put", "delete", "options"]

/-- URL rewriting performed by every proxy method (`http_meth_factory`):
`"/".join([self.config["baseurl"].rstrip("/"), urlparse(url).path.lstrip("/")])`. -/
def fullUrlOf (baseurl url : String) : String :=
  rstripSlashes baseurl ++ "/" ++ lstripSlashes (urlparse url).path

/-- The `requests.Session` state the client code touches: its default headers. -/
structure EBSession where
  headers : SDict String

/-- One request handed to the underlying `requests.Session` verb method.
`params` is the `params=` keyword argument (a dictionary), `kwargs` the
remaining keyword arguments; `headers` records the session default headers in
effect, which the `requests` library applies to the outgoing request. -/
structure Request where
  meth : String
  url : String
  headers : SDict String
  params : SDict Json
  kwargs : SDict Json

/-- Proxy verb method produced by `http_meth_factory`: rewrite the URL onto
the configured baseurl and delegate to the session method, forwarding the
arguments unchanged. -/
def http_method (baseurl : String) (sess : EBSession) (meth url : String)
    (params : SDict Json) (kwargs : SDict Json) : Request :=
  { meth := meth, url := fullUrlOf baseurl url, headers := sess.headers,
    params := params, kwargs := kwargs }

/-- Effective request target as the specification words it: the configured
baseurl with its trailing slash stripped, joined by a single `/` to the path
component of the argument with its leading slash stripped. -/
def specEffectiveUrl (baseurl url : String) : String :=
  rstripSlashes baseurl ++ "/" ++ lstripSlashes (urlparse url).path

/-! ## Authenticators (`ElectronBond.authorize`, `ElectronBond.authorize_oauth`) -/

/-- Client configuration entries the authenticators read (`self.config`). -/
structure Config where
  baseurl : String
  username : String
  password : String
  oauth_client_id : String
  oauth_client_secret : String
  oauth_client_baseurl : String

/-- The POST issued by `authorize`: target URL and form body. -/
structure AuthRequest where
  url : String
  formData : SDict String

/-- Response of the token endpoint as `authorize` consumes it: the HTTP
status code and the outcome of `json.loads(resp.text)` (`Except` error when
the body is not valid JSON). -/
structure TokenResponse where
  status_code : Int
  body : Except Unit Json

/-- Outcome of `authorize` (paired with the resulting session headers):
normal return of the token, `ElectronBondAuthError`, or an exception from
JSON parsing / the missing `token` key, which `authorize` does not catch. -/
inductive AuthOutcome where
  | ok (token : Json)
  | authError (msg : String)
  | uncaughtParseError
  | uncaughtKeyError

/-- The request `authorize` sends:
`POST "/".join([baseurl.rstrip("/"), "get-token/"])` with the form body
`{"password": ..., "username": ...}`. -/
def authPostRequest (cfg : Config) : AuthRequest :=
  { url := rstripSlashes cfg.baseurl ++ "/" ++ "get-token/",
    formData := [("password", cfg.password), ("username", cfg.username)] }

/-- `ElectronBond.authorize`, with the token endpoint modelled as a function
from the issued POST to its response: on status 200/201 extract `token` from
the JSON body, install `Authorization: Bearer {token}` on the session and
return the token; otherwise raise `ElectronBondAuthError` with the status. -/
def authorize (cfg : Config) (env : AuthRequest → TokenResponse)
    (headers : SDict String) : AuthOutcome × SDict String :=
  let resp := env (authPostRequest cfg)
  if resp.status_code = 200 ∨ resp.status_code = 201 then
    match resp.body with
    | .error _ => (.uncaughtParseError, headers)
    | .ok j =>
        match j.getItem "token" with
        | none => (.uncaughtKeyError, headers)
        | some tok =>
            (.ok tok, headers.set "Authorization" ("Bearer " ++ tok.pyStr))
  else
    (.authError ("Failed to authorize with status: " ++ toString resp.status_code),
     headers)

/-- Outcome of `authorize_oauth`: normal return of the access token,
`ElectronBondAuthError`, or the uncaught `KeyError` from
`token["access_token"]`. -/
inductive OAuthOutcome where
  | ok (accessToken : Json)
  | authError (msg : String)
  | uncaughtKeyError

/-- Token URL `authorize_oauth` passes to `fetch_token`. -/
def oauthTokenUrl (cfg : Config) : String :=
  cfg.oauth_client_baseurl ++ "/oauth2/token"

/-- `ElectronBond.authorize_oauth`, with OAuth client construction and
`fetch_token` modelled by their combined outcome: either an exception with a
message, or the fetched token mapping.  Any exception in those two steps is
re-raised as `ElectronBondAuthError` with the original message embedded; the
`token["access_token"]` lookup afterwards is outside the `try` block. -/
def authorize_oauth (env : Except String Json) (headers : SDict String) :
    OAuthOutcome × SDict String :=
  match env with
  | .error msg =>
      (.authError ("Failed to authorize OAuth with message: " ++ msg), headers)
  | .ok token =>
      match token.getItem "access_token" with
      | none => (.uncaughtKeyError, headers)
      | some tok =>
          (.ok tok, headers.set "Authorization" ("Bearer " ++ tok.pyStr))

/-! ## Paginator (`ElectronBond.get_paged`) -/

/-- What the transport gives back for one issued GET, as `get_paged` consumes
it: a response whose `.json()` parses, a response whose `.json()` raises, or
an exception raised by the session call itself (e.g. a network error after
retries are exhausted). -/
inductive FetchResult where
  | ok (body : Json)
  | jsonError
  | transportError (msg : String)

/-- The environment a run of `get_paged` executes against. -/
def World : Type := Request → FetchResult

/-- How a run of the `get_paged` generator ends: exhausted normally,
`ElectronBondReturnError` carrying the payload it was formatted from, an
uncaught exception from before the `try` block (bad `params` kwarg, transport
error or JSON decode error on the first fetch), or out of fuel (a modelling
artifact: the Python loop has no iteration bound). -/
inductive PagedOutcome where
  | done
  | returnError (payload : Json)
  | uncaughtTypeError
  | uncaughtJsonError
  | uncaughtTransport (msg : String)
  | fuelOut

/-- Message of the `ElectronBondReturnError` raised by `get_paged`. -/
def returnErrorMessage (payload : Json) : String :=
  "get_paged doesn\x27t know how to handle " ++ payload.pyStr

/-- Observable behaviour of one run of `get_paged`: the GETs it issued in
order, the objects it yielded in order, and how it ended. -/
structure PagedResult where
  calls : List Request
  yielded : List Json
  outcome : PagedOutcome

/-- The `while` loop of `get_paged` (lines 121-128 of `client.py`), fuelled.
Every step faithfully mirrors one loop iteration: evaluate
`current_json["results"]` and its `len` (any failure is caught by the
enclosing `try` and becomes `ElectronBondReturnError` formatted with the
current payload), yield each element, break when `current_json.get("next")`
is falsy, otherwise increment `params["page"]` and re-fetch with only
`params` — an exception in that fetch or its `.json()` is also swallowed by
the `try`, with the error formatted from the payload of the page fetched
before it. -/
def getPagedLoop (w : World) (hdrs : SDict String) (url : String) :
    Nat → SDict Json → Json → PagedResult
  | 0, _, _ => ⟨[], [], .fuelOut⟩
  | fuel + 1, params, cur =>
      match cur with
      | Json.obj fields =>
          match SDict.get? fields "results" with
          | none => ⟨[], [], .returnError cur⟩
          | some res =>
              match res.pyIter with
              | none => ⟨[], [], .returnError cur⟩
              | some items =>
                  if items.isEmpty then ⟨[], [], .done⟩
                  else
                    let nx := (SDict.get? fields "next").getD Json.null
                    if nx.truthy then
                      match SDict.get? params "page" with
                      | none => ⟨[], items, .returnError cur⟩
                      | some pv =>
                          match pv.addOne with
                          | none => ⟨[], items, .returnError cur⟩
                          | some pv2 =>
                              let params2 := params.set "page" pv2
                              let rq : Request :=
                                ⟨"get", url, hdrs, params2, []⟩
                              match w rq with
                              | .ok nextJson =>
                                  let r := getPagedLoop w hdrs url fuel params2 nextJson
                                  ⟨rq :: r.calls, items ++ r.yielded, r.outcome⟩
                              | _ => ⟨[rq], items, .returnError cur⟩
                    else ⟨[], items, .done⟩
      | _ => ⟨[], [], .returnError cur⟩

/-- The first fetch of `get_paged` (outside the `try` block: a transport or
JSON decode error here propagates to the caller unmodified), followed by the
fuelled loop. -/
def getPagedFetch (w : World) (baseurl : String) (sess : EBSession)
    (url : String) (params : SDict Json) (kw : SDict Json) (fuel : Nat) :
    PagedResult :=
  let target := fullUrlOf baseurl url
  let rq : Request := ⟨"get", target, sess.headers, params, kw⟩
  match w rq with
  | .ok j =>
      let r := getPagedLoop w sess.headers target fuel params j
      ⟨rq :: r.calls, r.yielded, r.outcome⟩
  | .jsonError => ⟨[rq], [], .uncaughtJsonError⟩
  | .transportError m => ⟨[rq], [], .uncaughtTransport m⟩

/-- `ElectronBond.get_paged`: initialize `params = {"page": 1}`, merge in a
caller-supplied `params` mapping and remove that key from the forwarded
kwargs (a non-mapping `params` kwarg makes the `params.update(**...)` call
raise, uncaught), then fetch pages through the proxied `get`. -/
def getPagedRun (w : World) (baseurl : String) (sess : EBSession)
    (url : String) (kwargs : SDict Json) (fuel : Nat) : PagedResult :=
  let base : SDict Json := [("page", Json.num 1)]
  match SDict.get? kwargs "params" with
  | some (Json.obj entries) =>
      getPagedFetch w baseurl sess url (base.update entries)
        (kwargs.erase "params") fuel
  | some _ => ⟨[], [], .uncaughtTypeError⟩
  | none => getPagedFetch w baseurl sess url base kwargs fuel

/-- Page body following the server's pagination convention. -/
def mkPage (results : List Json) (next : Json) : Json :=
  Json.obj [("results", Json.arr results), ("next", next)]

/-- Paged server built from a list of page bodies: the request's `page` query
parameter (1-based) selects the page; anything else is a transport error. -/
def worldOfPages (pagesL : List (List Json × Json)) : World := fun rq =>
  match SDict.get? rq.params "page" with
  | some (Json.num k) =>
      if 1 ≤ k then
        match pagesL[(k - 1).toNat]? with
        | some pg => FetchResult.ok (mkPage pg.1 pg.2)
        | none => FetchResult.transportError "no such page"
      else FetchResult.transportError "bad page number"
  | _ => FetchResult.transportError "bad page number"

/-- The specification's description of the pagination output: concatenate the
`results` arrays page by page, stopping at the first page whose `results` is
empty (contributing nothing) or whose `next` is falsy (still contributing its
items). -/
def specPaged : List (List Json × Json) → List Json
  | [] => []
  | (rs, nx) :: rest =>
      if rs.isEmpty then []
      else if !nx.truthy then rs
      else rs ++ specPaged rest

/-- Whether a page sequence makes the pagination loop stop: some page is empty
or carries a falsy `next`. -/
def stopsWithin : List (List Json × Json) → Bool
  | [] => false
  | (rs, nx) :: rest => rs.isEmpty || !nx.truthy || stopsWithin rest

/-- The `params` dictionary `get_paged` starts from, as the specification
describes it: `{"page": 1}` merged with the caller-supplied `params` mapping. -/
def initParams (kwargs : SDict Json) : SDict Json :=
  match SDict.get? kwargs "params" with
  | some (Json.obj entries) => SDict.update [("page", Json.num 1)] entries
  | _ => [("page", Json.num 1)]

/-! ## Client operations acting on the shared session (for the header
invariant) -/

/-- One operation issued through the client after construction: a proxied
verb call, or a run of `get_paged`. -/
inductive ClientOp where
  | proxyOp (meth url : String) (params : SDict Json) (kwargs : SDict Json)
  | pagedOp (url : String) (kwargs : SDict Json) (fuel : Nat)

/-- Effect of one client operation on the session and the requests it issues.
Neither a proxy method nor `get_paged` contains any write to
`session.headers`, so the session comes back unchanged; the requests carry
the session's default headers (which `requests` applies to each call). -/
def runOp (w : World) (baseurl : String) (sess : EBSession) :
    ClientOp → EBSession × List Request
  | .proxyOp meth url params kwargs =>
      (sess, [http_method baseurl sess meth url params kwargs])
  | .pagedOp url kwargs fuel =>
      (sess, (getPagedRun w baseurl sess url kwargs fuel).calls)

/-- Run a sequence of client operations on one session, collecting every
request issued. -/
def runOps (w : World) (baseurl : String) :
    EBSession → List ClientOp → EBSession × List Request
  | sess, [] => (sess, [])
  | sess, op :: ops =>
      let r1 := runOp w baseurl sess op
      let r2 := runOps w baseurl r1.1 ops
      (r2.1, r1.2 ++ r2.2)

/-! ## Well-formedness predicates used in claim statements -/

/-- A host with none of the characters that end the netloc (`/`, `?`, `#`). -/
def hostOk (host : String) : Bool :=
  host.toList.all (fun c => !netlocDelim c)

/-- A plain absolute path: starts with exactly one `/` and contains no
fragment, query or parameter delimiter. -/
def plainAbsPath (p : String) : Bool :=
  match p.toList with
  | c :: rest =>
      (c == '/')
      && (match rest with
          | c2 :: _ => !(c2 == '/')
          | [] => true)
      && p.toList.all (fun c => !(c == '#' || c == '?' || c == ';'))
  | [] => false

/-- Whether evaluating `current_json["results"]` / `len(...)` on a parsed
page raises: the value is not a dictionary with a `results` key, or the
`results` value is not sized.  (The only other field access in the loop,
`current_json.get("next")`, runs after this one has succeeded and can no
longer raise.) -/
def resultsAccessFails (j : Json) : Bool :=
  match j.getItem "results" with
  | none => true
  | some r => r.pyIter.isNone

/-! ## Helper lemmas -/

theorem SDict.get?_set_self {α : Type} (d : SDict α) (k : String) (v : α) :
    (d.set k v).get? k = some v := by
  induction d with
  | nil => simp [set, get?]
  | cons hd tl ih =>
      by_cases h : hd.1 = k
      · simp [set, get?, h]
      · simpa [set, get?, h] using ih

theorem SDict.set_set {α : Type} (d : SDict α) (k : String) (v w : α) :
    (d.set k v).set k w = d.set k w := by
  induction d with
  | nil => simp [set]
  | cons hd tl ih =>
      by_cases h : hd.1 = k
      · simp [set, h]
      · simp [set, h, ih]

theorem SDict.erase_of_get?_eq_none {α : Type} (d : SDict α) (k : String)
    (h : d.get? k = none) : d.erase k = d := by
  induction d with
  | nil => simp [erase]
  | cons hd tl ih =>
      by_cases hk : hd.1 = k
      · simp [get?, hk] at h
      · simp [get?, hk] at h
        simp [erase, hk, ih h]

/-! ## Claim theorems: authenticators -/

/-- C3: for every response to the POST to `{baseurl}/get-token/` with HTTP
status 200 or 201 whose JSON body has a `token` field, `authorize` returns
that token string and sets the session default header `Authorization` to
`Bearer {token}`, so a subsequently proxied request on the session carries
that header. -/
theorem authorize_success_sets_bearer_header
    (cfg : Config) (env : AuthRequest → TokenResponse) (headers : SDict String)
    (t : String) (j : Json) (baseurl meth url : String)
    (pk kw : SDict Json)
    (hstatus : (env (authPostRequest cfg)).status_code = 200 ∨
      (env (authPostRequest cfg)).status_code = 201)
    (hbody : (env (authPostRequest cfg)).body = Except.ok j)
    (htok : j.getItem "token" = some (Json.str t)) :
    authorize cfg env headers
      = (AuthOutcome.ok (Json.str t),
         headers.set "Authorization" ("Bearer " ++ t))
    ∧ (headers.set "Authorization" ("Bearer " ++ t)).get? "Authorization"
        = some ("Bearer " ++ t)
    ∧ (http_method baseurl ⟨headers.set "Authorization" ("Bearer " ++ t)⟩
         meth url pk kw).headers.get? "Authorization"
        = some ("Bearer " ++ t) := by
  refine ⟨?_, SDict.get?_set_self headers _ _, SDict.get?_set_self headers _ _⟩
  simp only [authorize]
  rw [if_pos hstatus, hbody]
  simp only [htok, Json.pyStr]

/-- Witness for C3: a token endpoint answering 200 with body
`{"token": "abc"}`. -/
theorem authorize_success_sets_bearer_header_witness :
    authorize ⟨"http://b", "u", "p", "", "", ""⟩
        (fun _ => ⟨200, Except.ok (Json.obj [("token", Json.str "abc")])⟩) []
      = (AuthOutcome.ok (Json.str "abc"),
         SDict.set [] "Authorization" ("Bearer " ++ "abc"))
    ∧ (SDict.set [] "Authorization" ("Bearer " ++ "abc")).get? "Authorization"
        = some ("Bearer " ++ "abc")
    ∧ (http_method "http://b" ⟨SDict.set [] "Authorization" ("Bearer " ++ "abc")⟩
         "get" "objects/" [] []).headers.get? "Authorization"
        = some ("Bearer " ++ "abc") :=
  authorize_success_sets_bearer_header ⟨"http://b", "u", "p", "", "", ""⟩
    (fun _ => ⟨200, Except.ok (Json.obj [("token", Json.str "abc")])⟩) []
    "abc" (Json.obj [("token", Json.str "abc")]) "http://b" "get" "objects/" [] []
    (Or.inl rfl) rfl rfl

/-- C4: for every response to the token endpoint whose status is neither 200
nor 201, `authorize` raises `ElectronBondAuthError` carrying the status code
and leaves the session headers unmodified. -/
theorem authorize_non2xx_raises_autherror
    (cfg : Config) (env : AuthRequest → TokenResponse) (headers : SDict String)
    (hstatus : ¬ ((env (authPostRequest cfg)).status_code = 200 ∨
      (env (authPostRequest cfg)).status_code = 201)) :
    authorize cfg env headers
      = (AuthOutcome.authError
          ("Failed to authorize with status: "
            ++ toString (env (authPostRequest cfg)).status_code),
         headers) := by
  simp only [authorize]
  rw [if_neg hstatus]

/-- Witness for C4: a token endpoint answering 403. -/
theorem authorize_non2xx_raises_autherror_witness :
    authorize ⟨"http://b", "u", "p", "", "", ""⟩
        (fun _ => ⟨403, Except.error ()⟩) []
      = (AuthOutcome.authError
          ("Failed to authorize with status: " ++ toString (403 : Int)), []) :=
  authorize_non2xx_raises_autherror ⟨"http://b", "u", "p", "", "", ""⟩
    (fun _ => ⟨403, Except.error ()⟩) [] (by decide)

/-- C5: every exception raised during OAuth client construction or token
fetch is re-raised by `authorize_oauth` as `ElectronBondAuthError` with the
original message embedded, and no exception of the original kind escapes
those two steps; the session headers are untouched. -/
theorem authorize_oauth_wraps_exceptions (msg : String) (headers : SDict String) :
    authorize_oauth (Except.error msg) headers
      = (OAuthOutcome.authError
          ("Failed to authorize OAuth with message: " ++ msg), headers) := rfl

/-- C10: if the OAuth token fetch succeeds but the token mapping has no
`access_token` key, the key lookup error propagates raw (not as
`ElectronBondAuthError`) and the headers are left unchanged. -/
theorem oauth_missing_access_token_uncaught (token : Json)
    (headers : SDict String)
    (h : token.getItem "access_token" = none) :
    authorize_oauth (Except.ok token) headers
      = (OAuthOutcome.uncaughtKeyError, headers) := by
  simp only [authorize_oauth]
  rw [h]

/-- Witness for C10: a fetched token mapping `{}` with no `access_token`. -/
theorem oauth_missing_access_token_uncaught_witness :
    authorize_oauth (Except.ok (Json.obj [("x", Json.null)])) [("k", "v")]
      = (OAuthOutcome.uncaughtKeyError, [("k", "v")]) :=
  oauth_missing_access_token_uncaught (Json.obj [("x", Json.null)]) [("k", "v")] rfl

theorem findChIdx_eq_none_of (p : Char → Bool) (l : List Char)
    (h : ∀ c ∈ l, p c = false) : findChIdx p l = none := by
  induction l with
  | nil => rfl
  | cons c rest ih =>
      have hc : p c = false := h c (List.mem_cons_self c rest)
      have hr : findChIdx p rest = none :=
        ih (fun x hx => h x (List.mem_cons_of_mem c hx))
      simp [findChIdx, hc, hr]

theorem findChIdx_append_left_none (p : Char → Bool) (l1 l2 : List Char)
    (h : findChIdx p l1 = none) :
    findChIdx p (l1 ++ l2) = (findChIdx p l2).map (· + l1.length) := by
  induction l1 with
  | nil => cases hfi : findChIdx p l2 <;> simp [hfi]
  | cons c rest ih =>
      cases hpc : p c with
      | true => simp [findChIdx, hpc] at h
      | false =>
          have h2 : findChIdx p rest = none := by
            simp only [findChIdx, hpc, Bool.false_eq_true, if_false,
              Option.map_eq_none'] at h
            exact h
          rw [List.cons_append]
          simp only [findChIdx, hpc, Bool.false_eq_true, if_false, ih h2]
          cases hfi : findChIdx p l2 with
          | none => simp
          | some v => simp [Nat.add_assoc]

theorem hasCh_eq_false_of (ch : Char) (l : List Char)
    (h : ∀ c ∈ l, (c == ch) = false) : hasCh ch l = false := by
  induction l with
  | nil => rfl
  | cons c rest ih =>
      have hc : (c == ch) = false := h c (List.mem_cons_self c rest)
      have hr : hasCh ch rest = false :=
        ih (fun x hx => h x (List.mem_cons_of_mem c hx))
      simp [hasCh, hc, hr]

theorem schemeChar_ne_colon (c : Char) (h : isSchemeChar c = true) :
    (c == ':') = false := by
  rw [beq_eq_false_iff_ne]
  rintro rfl
  exact absurd h (by decide)

theorem alpha_ne_colon (c : Char) (h : c.isAlpha = true) :
    (c == ':') = false := by
  rw [beq_eq_false_iff_ne]
  rintro rfl
  exact absurd h (by decide)

theorem plainAbsPath_elim (p : String) (hp : plainAbsPath p = true) :
    (∃ rest0, p.toList = '/' :: rest0) ∧
      ∀ c ∈ p.toList,
        (c == '#') = false ∧ (c == '?') = false ∧ (c == ';') = false := by
  unfold plainAbsPath at hp
  rcases hplc : p.toList with _ | ⟨c0, rest0⟩ <;> rw [hplc] at hp
  · simp at hp
  · simp only [Bool.and_eq_true, List.all_eq_true, beq_iff_eq] at hp
    obtain ⟨⟨hc0, _⟩, hall⟩ := hp
    subst hc0
    refine ⟨⟨rest0, rfl⟩, ?_⟩
    intro c hc
    have hcc := hall c hc
    simp only [Bool.not_eq_true', Bool.or_eq_false_iff] at hcc
    exact ⟨hcc.1.1, hcc.1.2, hcc.2⟩

/-- On a well-formed absolute URL `scheme://host/path` whose path carries no
fragment, query or parameter delimiter, `urlparse` recovers exactly the path,
discarding scheme and host. -/
theorem urlparse_path_of_wf (scheme host p : String)
    (hs : validScheme scheme.toList = true)
    (hh : hostOk host = true)
    (hp : plainAbsPath p = true) :
    (urlparse (scheme ++ "://" ++ host ++ p)).path = p := by
  have hcs : (scheme ++ "://" ++ host ++ p).toList
      = scheme.toList ++ ':' :: '/' :: '/' :: (host.toList ++ p.toList) := by
    simp [String.toList, String.data_append]
  obtain ⟨⟨rest0, hpl⟩, hallp⟩ := plainAbsPath_elim p hp
  -- scheme characters are never colons
  have hsl : ∀ c ∈ scheme.toList, ((fun c => c == ':') c) = false := by
    intro c hcmem
    unfold validScheme at hs
    rcases hsc : scheme.toList with _ | ⟨c0, srest⟩ <;> rw [hsc] at hs hcmem
    · simp at hcmem
    · simp only [Bool.and_eq_true, List.all_eq_true] at hs
      rcases List.mem_cons.mp hcmem with rfl | hmem
      · exact alpha_ne_colon c hs.1
      · exact schemeChar_ne_colon c (hs.2 c hmem)
  -- compute the scheme split
  have hfind1 : findChIdx (fun c => c == ':')
      (scheme.toList ++ ':' :: '/' :: '/' :: (host.toList ++ p.toList))
      = some scheme.toList.length := by
    rw [findChIdx_append_left_none _ _ _ (findChIdx_eq_none_of _ _ hsl)]
    simp [findChIdx]
  have hassoc : scheme.toList ++ ':' :: '/' :: '/' :: (host.toList ++ p.toList)
      = (scheme.toList ++ [':']) ++ '/' :: '/' :: (host.toList ++ p.toList) := by
    simp
  have hlen : scheme.toList.length + 1 = (scheme.toList ++ [':']).length := by
    simp
  have hsplit1 : splitScheme (scheme ++ "://" ++ host ++ p).toList
      = (scheme.toList.map Char.toLower,
         '/' :: '/' :: (host.toList ++ p.toList)) := by
    rw [hcs]
    unfold splitScheme
    rw [hfind1]
    simp only [List.take_left, hs, if_true]
    rw [hlen, hassoc, List.drop_left]
  -- compute the netloc split
  have hhl : ∀ c ∈ host.toList, netlocDelim c = false := by
    intro c hcmem
    unfold hostOk at hh
    simp only [List.all_eq_true] at hh
    simpa using hh c hcmem
  have hfind2 : findChIdx netlocDelim (host.toList ++ p.toList)
      = some host.toList.length := by
    rw [findChIdx_append_left_none _ _ _ (findChIdx_eq_none_of _ _ hhl)]
    rw [hpl]
    simp [findChIdx, netlocDelim]
  have hsplit2 : splitNetloc (host.toList ++ p.toList)
      = (host.toList, p.toList) := by
    unfold splitNetloc
    rw [hfind2]
    simp only [List.take_left, List.drop_left]
  -- the fragment and query splits are no-ops on the path
  have hfrag : splitOnceAt '#' p.toList = (p.toList, []) := by
    unfold splitOnceAt
    rw [findChIdx_eq_none_of _ _ (fun c hc => (hallp c hc).1)]
  have hquery : splitOnceAt '?' p.toList = (p.toList, []) := by
    unfold splitOnceAt
    rw [findChIdx_eq_none_of _ _ (fun c hc => (hallp c hc).2.1)]
  have hsemi : hasCh ';' p.toList = false :=
    hasCh_eq_false_of _ _ (fun c hc => (hallp c hc).2.2)
  -- assemble
  simp only [urlparse, hsplit1, startsWithDoubleSlash, beq_self_eq_true,
    Bool.and_self, if_true, List.drop_succ_cons, List.drop_zero, hsplit2,
    hfrag, hquery, hsemi, Bool.and_false, Bool.false_eq_true, if_false]
  rfl

/-! ## Claim theorem: URL-proxying verb methods -/

/-- C2: for every URL argument passed to any proxy verb method, regardless of
any scheme or host embedded in it, the URL sent to the underlying session is
the configured baseurl with its trailing slash stripped, joined by `/` to the
path component of the argument with its leading slash stripped — in
particular, on a well-formed absolute URL the scheme and host are discarded
entirely and only the path survives. -/
theorem proxy_requests_target_baseurl (meth : String) (hm : meth ∈ proxyVerbs)
    (baseurl : String) (sess : EBSession) (pk kw : SDict Json) :
    (∀ url : String,
      (http_method baseurl sess meth url pk kw).url = specEffectiveUrl baseurl url)
    ∧ ∀ scheme host p : String,
        validScheme scheme.toList = true → hostOk host = true →
        plainAbsPath p = true →
        (http_method baseurl sess meth (scheme ++ "://" ++ host ++ p) pk kw).url
          = rstripSlashes baseurl ++ "/" ++ lstripSlashes p := by
  refine ⟨fun url => rfl, fun scheme host p hs hh hp => ?_⟩
  simp only [http_method, fullUrlOf, urlparse_path_of_wf scheme host p hs hh hp]

/-- Witness for C2: the `get` proxy method sends a URL with an embedded
foreign scheme and host to the configured baseurl. -/
theorem proxy_requests_target_baseurl_witness :
    (http_method "https://base/" ⟨[]⟩ "get"
        ("http" ++ "://" ++ "evil.example" ++ "/repositories/2") [] []).url
      = rstripSlashes "https://base/" ++ "/" ++ lstripSlashes "/repositories/2" :=
  (proxy_requests_target_baseurl "get" (by decide) "https://base/" ⟨[]⟩ [] []).2
    "http" "evil.example" "/repositories/2" (by decide) (by decide) (by decide)

/-! ## Claim theorems: paginator -/

theorem drop_cons_succ {α : Type} : ∀ (l : List α) (i : Nat) (a : α) (s : List α),
    l.drop i = a :: s → l.drop (i + 1) = s := by
  intro l
  induction l with
  | nil => intro i a s h; simp at h
  | cons x xs ih =>
      intro i a s h
      cases i with
      | zero =>
          simp only [List.drop_zero, List.cons.injEq] at h
          simpa using h.2
      | succ n =>
          have := ih n a s (by simpa using h)
          simpa using this

theorem getElem?_of_drop_cons {α : Type} : ∀ (l : List α) (i : Nat) (a : α) (s : List α),
    l.drop i = a :: s → l[i]? = some a := by
  intro l
  induction l with
  | nil => intro i a s h; simp at h
  | cons x xs ih =>
      intro i a s h
      cases i with
      | zero =>
          simp only [List.drop_zero, List.cons.injEq] at h
          simp [h.1]
      | succ n =>
          simpa using ih n a s (by simpa using h)

theorem mkPage_results_lookup (rs : List Json) (nx : Json) :
    SDict.get? [("results", Json.arr rs), ("next", nx)] "results"
      = some (Json.arr rs) := rfl

theorem mkPage_next_lookup (rs : List Json) (nx : Json) :
    SDict.get? [("results", Json.arr rs), ("next", nx)] "next" = some nx := rfl

/-- One run of the `get_paged` loop over a paged server: starting at page
`i + 1` whose body is the head of the remaining page list, the loop yields
exactly the specified items and terminates, provided some remaining page
stops the loop and the fuel covers the remaining pages. -/
theorem getPagedLoop_pages (pagesL : List (List Json × Json))
    (hdrs : SDict String) (url : String) :
    ∀ (suffix : List (List Json × Json)) (i fuel : Nat) (params : SDict Json)
      (rs : List Json) (nx : Json),
      pagesL.drop i = (rs, nx) :: suffix →
      SDict.get? params "page" = some (Json.num ((i : Int) + 1)) →
      stopsWithin ((rs, nx) :: suffix) = true →
      suffix.length + 1 ≤ fuel →
      (getPagedLoop (worldOfPages pagesL) hdrs url fuel params
          (mkPage rs nx)).yielded
        = specPaged ((rs, nx) :: suffix)
      ∧ (getPagedLoop (worldOfPages pagesL) hdrs url fuel params
          (mkPage rs nx)).outcome
        = PagedOutcome.done := by
  intro suffix
  induction suffix with
  | nil =>
      intro i fuel params rs nx hdrop hpage hstop hfuel
      cases fuel with
      | zero => exact absurd hfuel (by omega)
      | succ f =>
          simp only [stopsWithin, Bool.or_false, Bool.or_eq_true] at hstop
          simp only [getPagedLoop, mkPage, mkPage_results_lookup,
            mkPage_next_lookup, Json.pyIter, Option.getD_some]
          rcases hstop with hrs | hnx
          · simp [hrs, specPaged]
          · cases hrs : rs.isEmpty with
            | true => simp [hrs, specPaged]
            | false =>
                simp only [Bool.not_eq_true'] at hnx
                simp [hrs, hnx, specPaged]
  | cons hd2 rest ih =>
      intro i fuel params rs nx hdrop hpage hstop hfuel
      cases fuel with
      | zero => exact absurd hfuel (by omega)
      | succ f =>
          obtain ⟨rs2, nx2⟩ := hd2
          simp only [getPagedLoop, mkPage, mkPage_results_lookup,
            mkPage_next_lookup, Json.pyIter, Option.getD_some]
          cases hrs : rs.isEmpty with
          | true => simp [hrs, specPaged]
          | false =>
              cases hnx : nx.truthy with
              | false => simp [hrs, hnx, specPaged]
              | true =>
                  have hstop2 : stopsWithin ((rs2, nx2) :: rest) = true := by
                    simp only [stopsWithin, hrs, hnx, Bool.not_true,
                      Bool.false_or] at hstop
                    exact hstop
                  -- the fetch of the next page succeeds with the next body
                  have hdrop2 : pagesL.drop (i + 1) = (rs2, nx2) :: rest :=
                    drop_cons_succ pagesL i (rs, nx) ((rs2, nx2) :: rest) hdrop
                  have hidx : pagesL[i + 1]? = some (rs2, nx2) :=
                    getElem?_of_drop_cons pagesL (i + 1) (rs2, nx2) rest hdrop2
                  have hpage2 : SDict.get? (params.set "page"
                      (Json.num ((i : Int) + 1 + 1))) "page"
                      = some (Json.num ((i : Int) + 1 + 1)) :=
                    SDict.get?_set_self params "page" (Json.num ((i : Int) + 1 + 1))
                  have hworld : worldOfPages pagesL
                      ⟨"get", url, hdrs,
                        params.set "page" (Json.num ((i : Int) + 1 + 1)), []⟩
                      = FetchResult.ok (mkPage rs2 nx2) := by
                    unfold worldOfPages
                    simp only [hpage2]
                    rw [if_pos (by omega : (1 : Int) ≤ (i : Int) + 1 + 1)]
                    have htn : ((i : Int) + 1 + 1 - 1).toNat = i + 1 := by omega
                    rw [htn, hidx]
                  have ihh := ih (i + 1) f
                    (params.set "page" (Json.num ((i : Int) + 1 + 1))) rs2 nx2
                    hdrop2
                    (by
                      have hc : ((i + 1 : Nat) : Int) + 1 = (i : Int) + 1 + 1 := by
                        push_cast
                        ring
                      rw [hc]
                      exact hpage2)
                    hstop2
                    (by simpa using Nat.le_of_succ_le_succ hfuel)
                  simp only [hrs, hnx, hpage, Json.addOne, hworld, if_true,
                    Bool.false_eq_true, if_false, specPaged, Bool.not_true]
                  simp only [ihh.1, ihh.2, and_true, true_and]
                  simp [specPaged, hrs, hnx]

/-- C1: over any sequence of server page responses that eventually stops the
loop, `get_paged` yields exactly the elements of each page's `results` array
in array order, page by page in increasing page number, terminating at the
first page with an empty `results` (yielding nothing from it) or with a
non-empty `results` and a falsy `next` (whose items are all still yielded). -/
theorem getPaged_yields_results_in_order (pagesL : List (List Json × Json))
    (baseurl url : String) (sess : EBSession) (fuel : Nat)
    (hstop : stopsWithin pagesL = true) (hfuel : pagesL.length ≤ fuel) :
    (getPagedRun (worldOfPages pagesL) baseurl sess url [] fuel).yielded
      = specPaged pagesL
    ∧ (getPagedRun (worldOfPages pagesL) baseurl sess url [] fuel).outcome
      = PagedOutcome.done := by
  cases pagesL with
  | nil => simp [stopsWithin] at hstop
  | cons hd tl =>
      obtain ⟨rs, nx⟩ := hd
      have hworld1 : worldOfPages ((rs, nx) :: tl)
          ⟨"get", fullUrlOf baseurl url, sess.headers,
            [("page", Json.num 1)], []⟩
          = FetchResult.ok (mkPage rs nx) := by
        unfold worldOfPages
        simp only [show SDict.get? [("page", Json.num 1)] "page"
          = some (Json.num 1) from rfl]
        rw [if_pos (by omega : (1 : Int) ≤ 1)]
        have htn : ((1 : Int) - 1).toNat = 0 := by omega
        rw [htn]
        simp
      have hloop := getPagedLoop_pages ((rs, nx) :: tl) sess.headers
        (fullUrlOf baseurl url) tl 0 fuel [("page", Json.num 1)] rs nx
        (by simp) (by simp [SDict.get?]) hstop (by simpa using hfuel)
      simp only [getPagedRun, getPagedFetch, SDict.get?, hworld1]
      exact ⟨hloop.1, hloop.2⟩

/-- Witness for C1: the two-page example from the specification —
`{"results": [1, 2], "next": "...page=2"}` then `{"results": [3], "next":
null}` — yields `1, 2, 3` in order and stops. -/
theorem getPaged_yields_results_in_order_witness :
    (getPagedRun (worldOfPages
        [([Json.num 1, Json.num 2], Json.str "...page=2"),
         ([Json.num 3], Json.null)])
        "http://b" ⟨[]⟩ "items/" [] 2).yielded
      = [Json.num 1, Json.num 2, Json.num 3]
    ∧ (getPagedRun (worldOfPages
        [([Json.num 1, Json.num 2], Json.str "...page=2"),
         ([Json.num 3], Json.null)])
        "http://b" ⟨[]⟩ "items/" [] 2).outcome
      = PagedOutcome.done := by
  have h := getPaged_yields_results_in_order
    [([Json.num 1, Json.num 2], Json.str "...page=2"),
     ([Json.num 3], Json.null)]
    "http://b" "items/" ⟨[]⟩ 2 (by decide) (by decide)
  exact ⟨h.1.trans (by rfl), h.2⟩

/-- A malformed page body makes one step of the `get_paged` loop raise
`ElectronBondReturnError` carrying that body, whatever the fuel left. -/
theorem getPagedLoop_malformed (w : World) (hdrs : SDict String) (url : String)
    (fuel : Nat) (params : SDict Json) (j : Json)
    (hmal : resultsAccessFails j = true) :
    getPagedLoop w hdrs url (fuel + 1) params j
      = ⟨[], [], PagedOutcome.returnError j⟩ := by
  unfold resultsAccessFails at hmal
  cases j with
  | obj fields =>
      simp only [Json.getItem] at hmal
      cases hres : SDict.get? fields "results" with
      | none => simp [getPagedLoop, hres]
      | some r =>
          rw [hres] at hmal
          simp only [Option.isNone_iff_eq_none] at hmal
          simp [getPagedLoop, hres, hmal]
  | null => simp [getPagedLoop]
  | bool b => simp [getPagedLoop]
  | num n => simp [getPagedLoop]
  | str s => simp [getPagedLoop]
  | arr elts => simp [getPagedLoop]

/-- One successful iteration of the `get_paged` loop on a page with non-empty
results and truthy `next`: yield the items, bump the page number, fetch, and
either continue or convert a fetch failure into `ElectronBondReturnError`. -/
theorem getPagedLoop_step (w : World) (hdrs : SDict String) (url : String)
    (fuel : Nat) (params : SDict Json) (rs : List Json) (nx : Json) (q : Int)
    (hpage : SDict.get? params "page" = some (Json.num q))
    (hrs : rs.isEmpty = false) (hnx : nx.truthy = true) :
    getPagedLoop w hdrs url (fuel + 1) params (mkPage rs nx)
      = match w ⟨"get", url, hdrs, params.set "page" (Json.num (q + 1)), []⟩ with
        | FetchResult.ok nextJson =>
            ⟨(⟨"get", url, hdrs, params.set "page" (Json.num (q + 1)), []⟩ : Request)
                :: (getPagedLoop w hdrs url fuel
                      (params.set "page" (Json.num (q + 1))) nextJson).calls,
              rs ++ (getPagedLoop w hdrs url fuel
                      (params.set "page" (Json.num (q + 1))) nextJson).yielded,
              (getPagedLoop w hdrs url fuel
                  (params.set "page" (Json.num (q + 1))) nextJson).outcome⟩
        | _ => ⟨[⟨"get", url, hdrs, params.set "page" (Json.num (q + 1)), []⟩],
                 rs, PagedOutcome.returnError (mkPage rs nx)⟩ := by
  simp only [getPagedLoop, mkPage, mkPage_results_lookup, Json.pyIter, hrs,
    Bool.false_eq_true, if_false, mkPage_next_lookup, Option.getD_some, hnx,
    if_true, hpage, Json.addOne]

/-- C6: a page response on which accessing `results` raises — whether it is
the first page or a later one — makes `get_paged` raise
`ElectronBondReturnError` whose message embeds the offending parsed payload
(items of earlier well-formed pages having been yielded). -/
theorem getPaged_malformed_page_raises_returnerror
    (w : World) (baseurl url : String) (sess : EBSession) (fuel : Nat)
    (j : Json) (rs : List Json) (nx : Json) (j2 : Json)
    (hfirst : w ⟨"get", fullUrlOf baseurl url, sess.headers,
        [("page", Json.num 1)], []⟩ = FetchResult.ok j)
    (hmal : resultsAccessFails j = true) :
    ((getPagedRun w baseurl sess url [] (fuel + 1)).yielded = []
      ∧ (getPagedRun w baseurl sess url [] (fuel + 1)).outcome
          = PagedOutcome.returnError j
      ∧ returnErrorMessage j
          = "get_paged doesn\x27t know how to handle " ++ j.pyStr)
    ∧ (∀ w2 : World,
        w2 ⟨"get", fullUrlOf baseurl url, sess.headers,
            [("page", Json.num 1)], []⟩ = FetchResult.ok (mkPage rs nx) →
        w2 ⟨"get", fullUrlOf baseurl url, sess.headers,
            SDict.set [("page", Json.num 1)] "page" (Json.num 2), []⟩
          = FetchResult.ok j2 →
        rs.isEmpty = false → nx.truthy = true → resultsAccessFails j2 = true →
        (getPagedRun w2 baseurl sess url [] (fuel + 1 + 1)).yielded = rs
        ∧ (getPagedRun w2 baseurl sess url [] (fuel + 1 + 1)).outcome
            = PagedOutcome.returnError j2) := by
  constructor
  · have hl := getPagedLoop_malformed w sess.headers (fullUrlOf baseurl url)
      fuel [("page", Json.num 1)] j hmal
    simp only [getPagedRun, SDict.get?, getPagedFetch, hfirst, hl]
    exact ⟨trivial, trivial, rfl⟩
  · intro w2 h1 h2 hrs hnx hmal2
    have h12 : (1 : Int) + 1 = 2 := by norm_num
    have hstep := getPagedLoop_step w2 sess.headers (fullUrlOf baseurl url)
      (fuel + 1) [("page", Json.num 1)] rs nx 1 rfl hrs hnx
    rw [h12] at hstep
    have hl2 := getPagedLoop_malformed w2 sess.headers (fullUrlOf baseurl url)
      fuel (SDict.set [("page", Json.num 1)] "page" (Json.num 2)) j2 hmal2
    simp only [getPagedRun, SDict.get?, getPagedFetch, h1, hstep, h2, hl2]
    simp

/-- Witness for C6: a first page `{"detail": "error"}` with no `results` key
raises, and on a second run a well-formed page 1 followed by that malformed
page 2 yields page 1 and then raises with the page-2 payload. -/
theorem getPaged_malformed_page_raises_returnerror_witness :
    ((getPagedRun (fun _ => FetchResult.ok (Json.obj [("detail", Json.str "error")]))
        "http://b" ⟨[]⟩ "items/" [] 3).yielded = []
      ∧ (getPagedRun (fun _ => FetchResult.ok (Json.obj [("detail", Json.str "error")]))
          "http://b" ⟨[]⟩ "items/" [] 3).outcome
          = PagedOutcome.returnError (Json.obj [("detail", Json.str "error")])
      ∧ returnErrorMessage (Json.obj [("detail", Json.str "error")])
          = "get_paged doesn\x27t know how to handle "
            ++ (Json.obj [("detail", Json.str "error")]).pyStr)
    ∧ ((getPagedRun (fun rq =>
          match SDict.get? rq.params "page" with
          | some (Json.num n) =>
              if n = 1 then FetchResult.ok (mkPage [Json.num 7] (Json.str "more"))
              else FetchResult.ok (Json.obj [("detail", Json.str "error")])
          | _ => FetchResult.jsonError)
          "http://b" ⟨[]⟩ "items/" [] 4).yielded = [Json.num 7]
      ∧ (getPagedRun (fun rq =>
          match SDict.get? rq.params "page" with
          | some (Json.num n) =>
              if n = 1 then FetchResult.ok (mkPage [Json.num 7] (Json.str "more"))
              else FetchResult.ok (Json.obj [("detail", Json.str "error")])
          | _ => FetchResult.jsonError)
          "http://b" ⟨[]⟩ "items/" [] 4).outcome
          = PagedOutcome.returnError (Json.obj [("detail", Json.str "error")])) := by
  have h := getPaged_malformed_page_raises_returnerror
    (fun _ => FetchResult.ok (Json.obj [("detail", Json.str "error")]))
    "http://b" "items/" ⟨[]⟩ 2
    (Json.obj [("detail", Json.str "error")]) [Json.num 7] (Json.str "more")
    (Json.obj [("detail", Json.str "error")]) rfl rfl
  refine ⟨h.1, h.2 (fun rq =>
      match SDict.get? rq.params "page" with
      | some (Json.num n) =>
          if n = 1 then FetchResult.ok (mkPage [Json.num 7] (Json.str "more"))
          else FetchResult.ok (Json.obj [("detail", Json.str "error")])
      | _ => FetchResult.jsonError) rfl rfl rfl rfl rfl⟩

/-- C7 counterexample: with page 1 returning `{"results": [1], "next":
"next"}` and the page-2 fetch raising a transport error, `get_paged` does not
let the transport error escape — it raises `ElectronBondReturnError`
(formatted from the page-1 payload) because the later fetches sit inside its
`try` block. -/
theorem getPaged_transport_error_second_fetch_counterexample :
    (getPagedRun (worldOfPages [([Json.num 1], Json.str "next")])
        "http://b" ⟨[]⟩ "items/" [] 5).outcome
      = PagedOutcome.returnError (mkPage [Json.num 1] (Json.str "next"))
    ∧ (getPagedRun (worldOfPages [([Json.num 1], Json.str "next")])
        "http://b" ⟨[]⟩ "items/" [] 5).yielded = [Json.num 1] :=
  ⟨rfl, rfl⟩

/-- C7 (amended): an exception other than the client's own two kinds
propagates unmodified from the first page fetch of `get_paged` (which is
outside the `try` block), but a transport exception during the fetch of any
later page is caught by the `try` block and re-raised as
`ElectronBondReturnError` formatted from the payload of the page before it. -/
theorem getPaged_transport_error_placement
    (w : World) (baseurl url : String) (sess : EBSession) (fuel : Nat)
    (m : String) (rs : List Json) (nx : Json)
    (hfirst : w ⟨"get", fullUrlOf baseurl url, sess.headers,
        [("page", Json.num 1)], []⟩ = FetchResult.transportError m) :
    (getPagedRun w baseurl sess url [] fuel).outcome
      = PagedOutcome.uncaughtTransport m
    ∧ ∀ w2 : World,
        w2 ⟨"get", fullUrlOf baseurl url, sess.headers,
            [("page", Json.num 1)], []⟩ = FetchResult.ok (mkPage rs nx) →
        w2 ⟨"get", fullUrlOf baseurl url, sess.headers,
            SDict.set [("page", Json.num 1)] "page" (Json.num 2), []⟩
          = FetchResult.transportError m →
        rs.isEmpty = false → nx.truthy = true →
        (getPagedRun w2 baseurl sess url [] (fuel + 1)).outcome
          = PagedOutcome.returnError (mkPage rs nx)
        ∧ (getPagedRun w2 baseurl sess url [] (fuel + 1)).yielded = rs := by
  constructor
  · simp only [getPagedRun, SDict.get?, getPagedFetch, hfirst]
  · intro w2 h1 h2 hrs hnx
    have h12 : (1 : Int) + 1 = 2 := by norm_num
    have hstep := getPagedLoop_step w2 sess.headers (fullUrlOf baseurl url)
      fuel [("page", Json.num 1)] rs nx 1 rfl hrs hnx
    rw [h12] at hstep
    simp only [getPagedRun, SDict.get?, getPagedFetch, h1, hstep, h2]
    simp

/-- Witness for the amended C7: a transport failure on the very first fetch
surfaces as-is, and on a one-page paged server whose page-2 fetch fails the
failure surfaces as `ElectronBondReturnError` instead. -/
theorem getPaged_transport_error_placement_witness :
    (getPagedRun (fun _ => FetchResult.transportError "no such page")
        "http://b" ⟨[]⟩ "items/" [] 4).outcome
      = PagedOutcome.uncaughtTransport "no such page"
    ∧ (getPagedRun (worldOfPages [([Json.num 1], Json.str "next")])
        "http://b" ⟨[]⟩ "items/" [] (4 + 1)).outcome
      = PagedOutcome.returnError (mkPage [Json.num 1] (Json.str "next"))
    ∧ (getPagedRun (worldOfPages [([Json.num 1], Json.str "next")])
        "http://b" ⟨[]⟩ "items/" [] (4 + 1)).yielded = [Json.num 1] := by
  have h := getPaged_transport_error_placement
    (fun _ => FetchResult.transportError "no such page")
    "http://b" "items/" ⟨[]⟩ 4 "no such page" [Json.num 1] (Json.str "next") rfl
  have h2 := h.2 (worldOfPages [([Json.num 1], Json.str "next")]) rfl rfl rfl rfl
  exact ⟨h.1, h2.1, h2.2⟩

/-- Every request the `get_paged` loop issues targets the same rewritten URL
with the session headers, carries no keyword arguments beyond `params`, and
its `params` is the running dictionary with `page` incremented once per
fetch. -/
theorem getPagedLoop_calls (w : World) (hdrs : SDict String) (url : String) :
    ∀ (fuel : Nat) (params : SDict Json) (cur : Json) (q : Int),
      SDict.get? params "page" = some (Json.num q) →
      ∀ (i : Nat) (rq : Request),
        (getPagedLoop w hdrs url fuel params cur).calls[i]? = some rq →
        rq.kwargs = [] ∧ rq.url = url ∧ rq.headers = hdrs ∧ rq.meth = "get"
          ∧ rq.params = params.set "page" (Json.num (q + (i : Int) + 1)) := by
  intro fuel
  induction fuel with
  | zero =>
      intro params cur q hq i rq h
      simp [getPagedLoop] at h
  | succ f ih =>
      intro params cur q hq i rq h
      cases cur with
      | null => simp [getPagedLoop] at h
      | bool b => simp [getPagedLoop] at h
      | num n => simp [getPagedLoop] at h
      | str s => simp [getPagedLoop] at h
      | arr elts => simp [getPagedLoop] at h
      | obj fields =>
          simp only [getPagedLoop] at h
          cases hres : SDict.get? fields "results" with
          | none => simp [hres] at h
          | some res =>
              simp only [hres] at h
              cases hit : res.pyIter with
              | none => simp [hit] at h
              | some items =>
                  simp only [hit] at h
                  cases hie : items.isEmpty with
                  | true => simp [hie] at h
                  | false =>
                      simp only [hie, Bool.false_eq_true, if_false] at h
                      cases hnx : ((SDict.get? fields "next").getD Json.null).truthy with
                      | false => simp [hnx] at h
                      | true =>
                          simp only [hnx, if_true, hq, Json.addOne] at h
                          cases hw : w ⟨"get", url, hdrs,
                              params.set "page" (Json.num (q + 1)), []⟩ with
                          | ok nextJson =>
                              simp only [hw] at h
                              cases i with
                              | zero =>
                                  simp only [List.getElem?_cons_zero,
                                    Option.some.injEq] at h
                                  subst h
                                  refine ⟨rfl, rfl, rfl, rfl, ?_⟩
                                  have hc : q + ((0 : Nat) : Int) + 1 = q + 1 := by
                                    push_cast; ring
                                  rw [hc]
                              | succ n =>
                                  simp only [List.getElem?_cons_succ] at h
                                  have hrec := ih
                                    (params.set "page" (Json.num (q + 1)))
                                    nextJson (q + 1)
                                    (SDict.get?_set_self params "page"
                                      (Json.num (q + 1)))
                                    n rq h
                                  refine ⟨hrec.1, hrec.2.1, hrec.2.2.1,
                                    hrec.2.2.2.1, ?_⟩
                                  rw [hrec.2.2.2.2, SDict.set_set]
                                  have hc : q + 1 + (n : Int) + 1
                                      = q + ((n + 1 : Nat) : Int) + 1 := by
                                    push_cast; ring
                                  rw [hc]
                          | jsonError =>
                              simp only [hw] at h
                              cases i with
                              | zero =>
                                  simp only [List.getElem?_cons_zero,
                                    Option.some.injEq] at h
                                  subst h
                                  refine ⟨rfl, rfl, rfl, rfl, ?_⟩
                                  have hc : q + ((0 : Nat) : Int) + 1 = q + 1 := by
                                    push_cast; ring
                                  rw [hc]
                              | succ n => simp at h
                          | transportError m =>
                              simp only [hw] at h
                              cases i with
                              | zero =>
                                  simp only [List.getElem?_cons_zero,
                                    Option.some.injEq] at h
                                  subst h
                                  refine ⟨rfl, rfl, rfl, rfl, ?_⟩
                                  have hc : q + ((0 : Nat) : Int) + 1 = q + 1 := by
                                    push_cast; ring
                                  rw [hc]
                              | succ n => simp at h

/-- C8: the first page fetch of `get_paged` forwards the caller's remaining
keyword arguments together with `params` initialized to `{"page": 1}` merged
with the caller-supplied `params` mapping (that key being removed from the
forwarded kwargs); every later fetch forwards only the `params` mapping, with
`page` incremented by one per fetch, and none of the other per-call kwargs. -/
theorem getPaged_kwargs_forwarding
    (w : World) (baseurl url : String) (sess : EBSession) (kw : SDict Json)
    (fuel : Nat) (p0 : Int)
    (hkw : SDict.get? kw "params" = none ∨
      ∃ e, SDict.get? kw "params" = some (Json.obj e))
    (hpage : SDict.get? (initParams kw) "page" = some (Json.num p0)) :
    (getPagedRun w baseurl sess url kw fuel).calls.head?
      = some ⟨"get", fullUrlOf baseurl url, sess.headers, initParams kw,
          kw.erase "params"⟩
    ∧ ∀ (i : Nat) (rq : Request),
        (getPagedRun w baseurl sess url kw fuel).calls[i + 1]? = some rq →
        rq.kwargs = [] ∧ rq.url = fullUrlOf baseurl url
          ∧ rq.params = (initParams kw).set "page"
              (Json.num (p0 + (i : Int) + 1)) := by
  rcases hkw with hnone | ⟨e, hsome⟩
  · have herase : kw.erase "params" = kw :=
      SDict.erase_of_get?_eq_none kw "params" hnone
    simp only [initParams, hnone] at hpage ⊢
    rw [herase]
    simp only [getPagedRun, hnone, getPagedFetch]
    cases hw : w ⟨"get", fullUrlOf baseurl url, sess.headers,
        [("page", Json.num 1)], kw⟩ with
    | ok j =>
        refine ⟨rfl, ?_⟩
        intro i rq h
        simp only [List.getElem?_cons_succ] at h
        have hrec := getPagedLoop_calls w sess.headers (fullUrlOf baseurl url)
          fuel [("page", Json.num 1)] j p0 hpage i rq h
        exact ⟨hrec.1, hrec.2.1, hrec.2.2.2.2⟩
    | jsonError =>
        refine ⟨rfl, ?_⟩
        intro i rq h
        simp at h
    | transportError m =>
        refine ⟨rfl, ?_⟩
        intro i rq h
        simp at h
  · simp only [initParams, hsome] at hpage ⊢
    simp only [getPagedRun, hsome, getPagedFetch]
    cases hw : w ⟨"get", fullUrlOf baseurl url, sess.headers,
        SDict.update [("page", Json.num 1)] e, kw.erase "params"⟩ with
    | ok j =>
        refine ⟨rfl, ?_⟩
        intro i rq h
        simp only [List.getElem?_cons_succ] at h
        have hrec := getPagedLoop_calls w sess.headers (fullUrlOf baseurl url)
          fuel (SDict.update [("page", Json.num 1)] e) j p0 hpage i rq h
        exact ⟨hrec.1, hrec.2.1, hrec.2.2.2.2⟩
    | jsonError =>
        refine ⟨rfl, ?_⟩
        intro i rq h
        simp at h
    | transportError m =>
        refine ⟨rfl, ?_⟩
        intro i rq h
        simp at h

/-- Witness for C8: a caller-supplied `params` mapping is merged into
`{"page": 1}` and consumed from the forwarded kwargs. -/
theorem getPaged_kwargs_forwarding_witness :
    (getPagedRun (fun _ => FetchResult.jsonError) "http://b" ⟨[]⟩ "items/"
        [("params", Json.obj [("fmt", Json.str "json")]),
         ("allow_redirects", Json.bool false)] 3).calls.head?
      = some ⟨"get", fullUrlOf "http://b" "items/", [],
          initParams [("params", Json.obj [("fmt", Json.str "json")]),
            ("allow_redirects", Json.bool false)],
          SDict.erase [("params", Json.obj [("fmt", Json.str "json")]),
            ("allow_redirects", Json.bool false)] "params"⟩ :=
  (getPaged_kwargs_forwarding (fun _ => FetchResult.jsonError) "http://b"
    "items/" ⟨[]⟩
    [("params", Json.obj [("fmt", Json.str "json")]),
     ("allow_redirects", Json.bool false)] 3 1
    (Or.inr ⟨[("fmt", Json.str "json")], rfl⟩) rfl).1

/-- Every request the `get_paged` loop issues carries the session default
headers it was started with: the loop never writes to them. -/
theorem getPagedLoop_calls_headers (w : World) (hdrs : SDict String)
    (url : String) :
    ∀ (fuel : Nat) (params : SDict Json) (cur : Json),
      ∀ rq ∈ (getPagedLoop w hdrs url fuel params cur).calls,
        rq.headers = hdrs := by
  intro fuel
  induction fuel with
  | zero => intro params cur rq h; simp [getPagedLoop] at h
  | succ f ih =>
      intro params cur rq h
      cases cur with
      | null => simp [getPagedLoop] at h
      | bool b => simp [getPagedLoop] at h
      | num n => simp [getPagedLoop] at h
      | str s => simp [getPagedLoop] at h
      | arr elts => simp [getPagedLoop] at h
      | obj fields =>
          simp only [getPagedLoop] at h
          cases hres : SDict.get? fields "results" with
          | none => simp [hres] at h
          | some res =>
              simp only [hres] at h
              cases hit : res.pyIter with
              | none => simp [hit] at h
              | some items =>
                  simp only [hit] at h
                  cases hie : items.isEmpty with
                  | true => simp [hie] at h
                  | false =>
                      simp only [hie, Bool.false_eq_true, if_false] at h
                      cases hnx : ((SDict.get? fields "next").getD Json.null).truthy with
                      | false => simp [hnx] at h
                      | true =>
                          simp only [hnx, if_true] at h
                          cases hpg : SDict.get? params "page" with
                          | none => simp [hpg] at h
                          | some pv =>
                              simp only [hpg] at h
                              cases hadd : pv.addOne with
                              | none => simp [hadd] at h
                              | some pv2 =>
                                  simp only [hadd] at h
                                  cases hw : w ⟨"get", url, hdrs,
                                      params.set "page" pv2, []⟩ with
                                  | ok nextJson =>
                                      simp only [hw] at h
                                      rcases List.mem_cons.mp h with rfl | hmem
                                      · rfl
                                      · exact ih (params.set "page" pv2)
                                          nextJson rq hmem
                                  | jsonError =>
                                      simp only [hw] at h
                                      rcases List.mem_singleton.mp h with rfl
                                      rfl
                                  | transportError m =>
                                      simp only [hw] at h
                                      rcases List.mem_singleton.mp h with rfl
                                      rfl

/-- Every request a run of `get_paged` issues carries the session default
headers: `get_paged` never writes to them. -/
theorem getPagedRun_calls_headers (w : World) (baseurl : String)
    (sess : EBSession) (url : String) (kw : SDict Json) (fuel : Nat) :
    ∀ rq ∈ (getPagedRun w baseurl sess url kw fuel).calls,
      rq.headers = sess.headers := by
  intro rq h
  simp only [getPagedRun] at h
  cases hkw : SDict.get? kw "params" with
  | none =>
      simp only [hkw, getPagedFetch] at h
      cases hw : w ⟨"get", fullUrlOf baseurl url, sess.headers,
          [("page", Json.num 1)], kw⟩ with
      | ok j =>
          simp only [hw] at h
          rcases List.mem_cons.mp h with rfl | hmem
          · rfl
          · exact getPagedLoop_calls_headers w sess.headers
              (fullUrlOf baseurl url) fuel [("page", Json.num 1)] j rq hmem
      | jsonError =>
          simp only [hw] at h
          rcases List.mem_singleton.mp h with rfl
          rfl
      | transportError m =>
          simp only [hw] at h
          rcases List.mem_singleton.mp h with rfl
          rfl
  | some v =>
      cases v with
      | obj e =>
          simp only [hkw, getPagedFetch] at h
          cases hw : w ⟨"get", fullUrlOf baseurl url, sess.headers,
              SDict.update [("page", Json.num 1)] e, kw.erase "params"⟩ with
          | ok j =>
              simp only [hw] at h
              rcases List.mem_cons.mp h with rfl | hmem
              · rfl
              · exact getPagedLoop_calls_headers w sess.headers
                  (fullUrlOf baseurl url) fuel
                  (SDict.update [("page", Json.num 1)] e) j rq hmem
          | jsonError =>
              simp only [hw] at h
              rcases List.mem_singleton.mp h with rfl
              rfl
          | transportError m =>
              simp only [hw] at h
              rcases List.mem_singleton.mp h with rfl
              rfl
      | null => simp [hkw] at h
      | bool b => simp [hkw] at h
      | num n => simp [hkw] at h
      | str s => simp [hkw] at h
      | arr elts => simp [hkw] at h

/-- C9: once the `Authorization` header is present on the session, no proxy
verb call and no run of `get_paged` removes or changes it, and every request
they issue on that session carries it. -/
theorem authorization_header_persists (w : World) (baseurl : String)
    (sess : EBSession) (ops : List ClientOp) (tok : String)
    (hauth : SDict.get? sess.headers "Authorization" = some tok) :
    SDict.get? (runOps w baseurl sess ops).1.headers "Authorization" = some tok
    ∧ ∀ rq ∈ (runOps w baseurl sess ops).2,
        SDict.get? rq.headers "Authorization" = some tok := by
  induction ops with
  | nil =>
      refine ⟨hauth, ?_⟩
      intro rq h
      simp [runOps] at h
  | cons op rest ih =>
      cases op with
      | proxyOp meth url pk kwargs =>
          simp only [runOps, runOp]
          refine ⟨ih.1, ?_⟩
          intro rq h
          rcases List.mem_append.mp h with h1 | h2
          · rcases List.mem_singleton.mp h1 with rfl
            exact hauth
          · exact ih.2 rq h2
      | pagedOp url kwargs fuel =>
          simp only [runOps, runOp]
          refine ⟨ih.1, ?_⟩
          intro rq h
          rcases List.mem_append.mp h with h1 | h2
          · rw [getPagedRun_calls_headers w baseurl sess url kwargs fuel rq h1]
            exact hauth
          · exact ih.2 rq h2

/-- Witness for C9: after the header is set, a proxy call and a paged run
leave it in place and the proxied request carries it. -/
theorem authorization_header_persists_witness :
    SDict.get? (runOps (fun _ => FetchResult.jsonError) "http://b"
        ⟨[("Authorization", "Bearer abc")]⟩
        [ClientOp.proxyOp "get" "x/" [] [],
         ClientOp.pagedOp "y/" [] 2]).1.headers "Authorization"
      = some "Bearer abc"
    ∧ SDict.get? (http_method "http://b" ⟨[("Authorization", "Bearer abc")]⟩
        "get" "x/" [] []).headers "Authorization" = some "Bearer abc" := by
  have h := authorization_header_persists (fun _ => FetchResult.jsonError)
    "http://b" ⟨[("Authorization", "Bearer abc")]⟩
    [ClientOp.proxyOp "get" "x/" [] [], ClientOp.pagedOp "y/" [] 2]
    "Bearer abc" rfl
  refine ⟨h.1, h.2 (http_method "http://b" ⟨[("Authorization", "Bearer abc")]⟩
    "get" "x/" [] []) ?_⟩
  simp [runOps, runOp]
